import Mathlib

/-!
# Verification of the dacpy DAAP/DACP binary codec

Shallow embedding of `dacpy/types.py` (the tag-length-value tree codec) and
the parameter-block construction of `dacpy/pairing.py`, with theorems
settling the frozen claims about the repository's specification.

Modelling conventions:
* Byte strings are `List Nat` with entries below 256 where it matters.
* Unicode strings are lists of code points (`List Nat`); the `utf-8` codec
  (the default and only codec used in the repository) is embedded as
  `utf8EncodeList` / `utf8DecodeList`.
* Python exceptions become an error type `DErr`; `except ValueError`
  clauses test `isValueError` (UnicodeDecodeError is a ValueError subclass,
  struct.error is not).
* `struct.pack`/`unpack` of fixed-width big-endian integers is embedded by
  `bytesBE` / `natOfBE` with explicit two's-complement adjustment.
-/

/-- Bytes of an ASCII string literal (used for 4-character tags). -/
def strBytes (s : String) : List Nat := s.data.map (fun c => c.toNat)

/-- Big-endian value of a byte list: `foldl (a*256 + b)`, as
`struct.unpack` computes it for `>B/>H/>L/>Q` fields. -/
def natOfBE (bs : List Nat) : Nat := bs.foldl (fun a b => a * 256 + b) 0

/-- Big-endian byte list of width `w` for `n` (low `8*w` bits), as
`struct.pack` lays out fixed-width unsigned integers. -/
def bytesBE (n w : Nat) : List Nat :=
  match w with
  | 0 => []
  | w + 1 => bytesBE (n / 256) w ++ [n % 256]

/-- The eight concrete numeric classes of `types.py`
(`UByte/Byte/UShort/Short/UInt/Int/ULong/Long`). -/
inductive NumKind where
  | ubyte | byte | ushort | short | uint | int | ulong | long
deriving DecidableEq, Repr

/-- The `length` class attribute (byte width). -/
def width : NumKind → Nat
  | .ubyte => 1 | .byte => 1
  | .ushort => 2 | .short => 2
  | .uint => 4 | .int => 4
  | .ulong => 8 | .long => 8

/-- The `signed` class attribute. -/
def signedB : NumKind → Bool
  | .byte => true | .short => true | .int => true | .long => true
  | _ => false

/-- The `_base_type` class attribute of `MultiInt` / `MultiUInt`. -/
def baseKind : Bool → NumKind
  | true => .int
  | false => .uint

/-- `min_value` as computed by `NumericType.__new__`. -/
def minVal (k : NumKind) : Int :=
  if signedB k then -(2 ^ (width k * 8 - 1) : Int) else 0

/-- `max_value` as computed by `NumericType.__new__`. -/
def maxVal (k : NumKind) : Int :=
  if signedB k then (2 ^ (width k * 8 - 1) : Int) - 1 else (2 ^ (width k * 8) : Int) - 1

/-- `struct.pack('>fmt', v)` for a numeric kind: big-endian two's-complement
bytes of the value (the pack succeeds exactly for in-range values, which the
serializers guard separately). -/
def packNum (k : NumKind) (v : Int) : List Nat :=
  bytesBE ((v % (2 ^ (width k * 8) : Int)).toNat) (width k)

/-- `struct.unpack_from('>fmt', data)[0]`: big-endian value of the first
`width k` bytes, sign-adjusted for signed kinds. -/
def decodeNumVal (k : NumKind) (data : List Nat) : Int :=
  let u := natOfBE (data.take (width k))
  if signedB k ∧ 2 ^ (width k * 8 - 1) ≤ u then (u : Int) - 2 ^ (width k * 8) else (u : Int)

/-- A code point a Python 2 `unicode` string can hold. -/
def validCp (c : Nat) : Bool := c < 0x110000

/-- UTF-8 encoding of one code point (the `utf-8` codec's per-character
byte sequence). -/
def utf8EncodeChar (c : Nat) : List Nat :=
  if c < 0x80 then [c]
  else if c < 0x800 then [0xC0 + c / 64, 0x80 + c % 64]
  else if c < 0x10000 then [0xE0 + c / 4096, 0x80 + c / 64 % 64, 0x80 + c % 64]
  else [0xF0 + c / 262144, 0x80 + c / 4096 % 64, 0x80 + c / 64 % 64, 0x80 + c % 64]

/-- `value.encode('utf-8')`. -/
def utf8EncodeList (s : List Nat) : List Nat := s.flatMap utf8EncodeChar

/-- Is `b` a UTF-8 continuation byte? -/
def isContByte (b : Nat) : Bool := 0x80 ≤ b ∧ b < 0xC0

/-- One step of strict UTF-8 decoding: given the lead byte `b` and the
remaining bytes, the decoded code point and the number of continuation
bytes consumed, or `none` on a malformed sequence (a missing continuation
byte reads as the sentinel `0xFF`, which fails the continuation check). -/
def decodeOneUtf8 (b : Nat) (rest : List Nat) : Option (Nat × Nat) :=
  let c1 := rest.getD 0 0xFF
  let c2 := rest.getD 1 0xFF
  let c3 := rest.getD 2 0xFF
  if b < 0x80 then some (b, 0)
  else if b < 0xC0 then none
  else if b < 0xE0 then
    if isContByte c1 then
      let c := (b - 0xC0) * 64 + (c1 - 0x80)
      if 0x80 ≤ c then some (c, 1) else none
    else none
  else if b < 0xF0 then
    if isContByte c1 ∧ isContByte c2 then
      let c := (b - 0xE0) * 4096 + (c1 - 0x80) * 64 + (c2 - 0x80)
      if 0x800 ≤ c then some (c, 2) else none
    else none
  else if b < 0xF8 then
    if isContByte c1 ∧ isContByte c2 ∧ isContByte c3 then
      let c := (b - 0xF0) * 262144 + (c1 - 0x80) * 4096 + (c2 - 0x80) * 64 + (c3 - 0x80)
      if 0x10000 ≤ c ∧ c < 0x110000 then some (c, 3) else none
    else none
  else none

/-- `bytes.decode('utf-8')`: strict UTF-8 decoding to code points, `none` on
a malformed sequence (Python raises `UnicodeDecodeError`). -/
def utf8DecodeList : List Nat → Option (List Nat)
  | [] => some []
  | b :: rest =>
    match decodeOneUtf8 b rest with
    | none => none
    | some (c, k) => (utf8DecodeList (rest.drop k)).map (fun s => c :: s)
termination_by bs => bs.length
decreasing_by
  simp [List.length_drop]
  omega

mutual
/-- The universe of DAAP values a tree can hold: the concrete `DAAPType`
subclasses of `types.py`.  `num` is the eight `Numeric` classes, `multi` is
`MultiInt`/`MultiUInt` (signedness flag), `dt` is `DateTime` (an optional
epoch-second instant; `none` is Python `None`), `version` is the raw
4-tuple, `str` is `String` (code points, default `utf-8` codec), `bin` is
`Binary`, `cont` is `Container`. -/
inductive DValue where
  | num (k : NumKind) (v : Int)
  | multi (sg : Bool) (vs : List Int)
  | dt (t : Option Int)
  | version (a b c d : Nat)
  | str (s : List Nat)
  | bin (bs : List Nat)
  | cont (c : ContVal)

/-- A `Container`'s value: either a single `String` or a list of `Node`s. -/
inductive ContVal where
  | text (s : List Nat)
  | nodes (ns : List DNode)

/-- A `Node`: tag (byte string) and value. -/
inductive DNode where
  | mk (tag : List Nat) (val : DValue)
end

/-- The `tag` attribute of a `Node`. -/
def DNode.tag : DNode → List Nat
  | ⟨t, _⟩ => t

/-- The `value` attribute of a `Node`. -/
def DNode.val : DNode → DValue
  | ⟨_, v⟩ => v

mutual
/-- The `length` attribute each value records at construction time
(`Numeric`: class width; `MultiNumeric`: count × element width;
`DateTime`/`Version`: 4; `String`: length of its serialization;
`Binary`: payload length; `Container`: text length or sum of child
lengths). -/
def dlength : DValue → Nat
  | .num k _ => width k
  | .multi _ vs => vs.length * 4
  | .dt _ => 4
  | .version _ _ _ _ => 4
  | .str s => (utf8EncodeList s).length
  | .bin bs => bs.length
  | .cont c => clength c

/-- `Container.__init__`'s length computation. -/
def clength : ContVal → Nat
  | .text s => (utf8EncodeList s).length
  | .nodes ns => nlistLength ns

/-- Sum of the node lengths of a child list. -/
def nlistLength : List DNode → Nat
  | [] => 0
  | n :: ns => nodeLength n + nlistLength ns

/-- `Node.__init__`: `self.length = self.value.length + 8`. -/
def nodeLength : DNode → Nat
  | ⟨_, v⟩ => dlength v + 8
end

/-- `struct.pack('>4s', tag)`: truncate or NUL-pad the tag to 4 bytes. -/
def pack4s (tag : List Nat) : List Nat :=
  tag.take 4 ++ List.replicate (4 - tag.length) 0

mutual
/-- `serialize()` of a value.  Returns `none` where the Python
implementation raises `struct.error` (an integer outside the range of its
pack format).  `DateTime.serialize` of a concrete instant is modelled on
the epoch-second count (the composition `time.mktime(value.timetuple())`
of local-time conversions, which is the identity on the wrapped instant's
epoch seconds). -/
def serializeV : DValue → Option (List Nat)
  | .num k v =>
    if minVal k ≤ v ∧ v ≤ maxVal k then some (packNum k v) else none
  | .multi sg vs =>
    if vs.all (fun v => minVal (baseKind sg) ≤ v ∧ v ≤ maxVal (baseKind sg)) then
      some (vs.flatMap (fun v => packNum (baseKind sg) v))
    else none
  | .dt none => some [0xff, 0xff, 0x9d, 0x90]
  | .dt (some t) =>
    if minVal .int ≤ t ∧ t ≤ maxVal .int then some (packNum .int t) else none
  | .version a b c d =>
    if a < 256 ∧ b < 256 ∧ c < 256 ∧ d < 256 then some [b, a, d, c] else none
  | .str s => some (utf8EncodeList s)
  | .bin bs => some bs
  | .cont c => serializeC c

/-- `Container.serialize`: the text's encoding, or the concatenation of the
children's serializations. -/
def serializeC : ContVal → Option (List Nat)
  | .text s => some (utf8EncodeList s)
  | .nodes ns => serializeL ns

/-- `''.join([x.serialize() for x in nodes])`. -/
def serializeL : List DNode → Option (List Nat)
  | [] => some []
  | n :: ns =>
    match serializeN n, serializeL ns with
    | some b, some r => some (b ++ r)
    | _, _ => none

/-- `Node.serialize`: `struct.pack('>4sl', tag, len(data)) + data`
(`none` when the length does not fit the signed-32 pack format). -/
def serializeN : DNode → Option (List Nat)
  | ⟨tag, v⟩ =>
    match serializeV v with
    | some data =>
      if data.length < 2 ^ 31 then some (pack4s tag ++ bytesBE data.length 4 ++ data)
      else none
    | none => none
end

/-- The value-type names the tag registry can map a tag to (the second
component of a `tags.TAGS` entry, resolved through `globals()` in
`Node.deserialize`). -/
inductive TagType where
  | tUByte | tByte | tUShort | tShort | tUInt | tInt | tULong | tLong
  | tMultiInt | tMultiUInt | tDateTime | tVersion | tString | tBinary | tContainer
deriving DecidableEq, Repr

/-- A tag registry: the `tag -> value type` part of `tags.TAGS`. -/
def Registry : Type := List (List Nat × TagType)

/-- `tags.TAGS[tag][1]` resolved through `globals()`: `none` is the
`KeyError` case. -/
def lookupTag (reg : Registry) (tag : List Nat) : Option TagType :=
  List.lookup tag reg

/-- Python exception classes raised by the codec.  `valueError` covers
`ValueError` (truncation in `Node.deserialize`, range failures in
`Numeric.__init__`); `unicodeError` is `UnicodeDecodeError` (a `ValueError`
subclass); `structError` is `struct.error` (not a `ValueError`);
`typeError` is `TypeError`. -/
inductive DErr where
  | valueError | unicodeError | structError | typeError
deriving DecidableEq, Repr

/-- Does an `except ValueError` clause catch this exception? -/
def isValueError : DErr → Bool
  | .valueError => true
  | .unicodeError => true
  | .structError => false
  | .typeError => false

/-- The range check of `Numeric.__init__` on an already-int value
(`raise ValueError` when outside `[min_value, max_value]`). -/
def numericInitInt (k : NumKind) (v : Int) : Except DErr Int :=
  if v < minVal k ∨ maxVal k < v then .error .valueError else .ok v

/-- `Numeric.deserialize`: `cls(struct.unpack_from('>fmt', bytes)[0])`.
`unpack_from` raises `struct.error` when fewer than `width` bytes are
available. -/
def numericDeserialize (k : NumKind) (data : List Nat) : Except DErr DValue :=
  if data.length < width k then .error .structError
  else
    match numericInitInt k (decodeNumVal k data) with
    | .ok v => .ok (.num k v)
    | .error e => .error e

/-- `MultiNumeric.__init__` on a tuple of integers: each element is passed
through the base type's constructor (range-checked). -/
def multiInit (sg : Bool) (vs : List Int) : Except DErr DValue :=
  if vs.all (fun v => minVal (baseKind sg) ≤ v ∧ v ≤ maxVal (baseKind sg)) then
    .ok (.multi sg vs)
  else .error .valueError

/-- `MultiNumeric.deserialize`: element count is `len(bytes) / 4` with
Python 2 floor division; `unpack_from` then reads that many elements (it
never fails, since `4 * (len / 4) <= len`). -/
def multiDeserialize (sg : Bool) (data : List Nat) : Except DErr DValue :=
  let n := data.length / width (baseKind sg)
  multiInit sg ((List.range n).map
    (fun i => decodeNumVal (baseKind sg) (data.drop (width (baseKind sg) * i))))

/-- `DateTime.deserialize`: `cls(datetime.fromtimestamp(unpack_from('>l')))`.
The calendar instant is modelled by its epoch-second count; the result
always wraps a concrete instant (`some`), never the absent state. -/
def dtDeserialize (data : List Nat) : Except DErr DValue :=
  if data.length < 4 then .error .structError
  else .ok (.dt (some (decodeNumVal .int data)))

/-- `Version.deserialize`: `unpack_from('<4B')` then the inverse byte
permutation `(val[1], val[0], val[3], val[2])`. -/
def versionDeserialize (data : List Nat) : Except DErr DValue :=
  match data with
  | b0 :: b1 :: b2 :: b3 :: _ => .ok (.version b1 b0 b3 b2)
  | _ => .error .structError

/-- `String.deserialize`: `cls(bytes.decode('utf-8'))`; a malformed byte
sequence raises `UnicodeDecodeError`. -/
def stringDeserialize (data : List Nat) : Except DErr DValue :=
  match utf8DecodeList data with
  | some s => .ok (.str s)
  | none => .error .unicodeError

mutual
/-- `Node.deserialize`: fewer than 8 bytes raises `ValueError`; the header
is `unpack_from('>4sl')`; the payload slice must have the declared length
(else `ValueError`); the payload is then decoded by the type the registry
resolves for the tag (`typeDispatch`). -/
def nodeDeserialize (reg : Registry) (bs : List Nat) : Except DErr DNode :=
  if bs.length < 8 then .error .valueError
  else
    let tag := bs.take 4
    let size : Int := decodeNumVal .int (bs.drop 4)
    let data := if size < 0 then [] else (bs.drop 8).take size.toNat
    if (data.length : Int) ≠ size then .error .valueError
    else typeDispatch reg tag (lookupTag reg tag) data
termination_by (bs.length, 0)
decreasing_by
  simp only [Prod.lex_def]
  left
  split
  · simp; omega
  · simp [List.length_take, List.length_drop]; omega

/-- `tagtype = globals()[tags.TAGS[tag][1]]` with the `KeyError` fallback to
`Binary`, followed by `tagtype.deserialize(data)` and wrapping in a `Node`. -/
def typeDispatch (reg : Registry) (tag : List Nat) (tt : Option TagType)
    (data : List Nat) : Except DErr DNode :=
  match tt with
  | some .tContainer =>
    match containerDeserialize reg data with
    | .ok c => .ok ⟨tag, .cont c⟩
    | .error e => .error e
  | some .tUByte => (numericDeserialize .ubyte data).map (fun v => ⟨tag, v⟩)
  | some .tByte => (numericDeserialize .byte data).map (fun v => ⟨tag, v⟩)
  | some .tUShort => (numericDeserialize .ushort data).map (fun v => ⟨tag, v⟩)
  | some .tShort => (numericDeserialize .short data).map (fun v => ⟨tag, v⟩)
  | some .tUInt => (numericDeserialize .uint data).map (fun v => ⟨tag, v⟩)
  | some .tInt => (numericDeserialize .int data).map (fun v => ⟨tag, v⟩)
  | some .tULong => (numericDeserialize .ulong data).map (fun v => ⟨tag, v⟩)
  | some .tLong => (numericDeserialize .long data).map (fun v => ⟨tag, v⟩)
  | some .tMultiInt => (multiDeserialize true data).map (fun v => ⟨tag, v⟩)
  | some .tMultiUInt => (multiDeserialize false data).map (fun v => ⟨tag, v⟩)
  | some .tDateTime => (dtDeserialize data).map (fun v => ⟨tag, v⟩)
  | some .tVersion => (versionDeserialize data).map (fun v => ⟨tag, v⟩)
  | some .tString => (stringDeserialize data).map (fun v => ⟨tag, v⟩)
  | some .tBinary => .ok ⟨tag, .bin data⟩
  | none => .ok ⟨tag, .bin data⟩
termination_by (data.length, 2)
decreasing_by
  simp only [Prod.lex_def]
  right
  exact ⟨trivial, by omega⟩

/-- `Container.deserialize`: parse `Node`s front-to-back, advancing by each
decoded node's `len`; on a `ValueError` from a node parse, the whole
remaining buffer is re-interpreted as a single `String`
(`return cls(String.deserialize(bytes[pos:]))`, discarding any
previously-parsed nodes); other exceptions propagate. -/
def containerDeserialize (reg : Registry) (bs : List Nat) : Except DErr ContVal :=
  if hbs : bs = [] then .ok (.nodes [])
  else
    match nodeDeserialize reg bs with
    | .error e =>
      if isValueError e then
        match utf8DecodeList bs with
        | some s => .ok (.text s)
        | none => .error .unicodeError
      else .error e
    | .ok val =>
      match containerDeserialize reg (bs.drop (nodeLength val)) with
      | .ok (.nodes vs) => .ok (.nodes (val :: vs))
      | .ok (.text t) => .ok (.text t)
      | .error e => .error e
termination_by (bs.length, 1)
decreasing_by
  · simp only [Prod.lex_def]
    right
    exact ⟨trivial, by omega⟩
  · simp only [Prod.lex_def]
    left
    have hlen : bs.length ≠ 0 := by
      intro hz
      exact hbs (List.eq_nil_of_length_eq_zero hz)
    have : 0 < nodeLength val := by
      cases val with
      | mk t v => simp [nodeLength]
    simp [List.length_drop]
    omega
end

/-- Python 2 `==` between a byte string and a unicode string: the bytes are
coerced through the `ascii` codec, so the comparison is true exactly when
every byte is below 0x80 and the sequences agree. -/
def asciiEq (bs s : List Nat) : Bool := bs.all (fun b => b < 128) && bs == s

mutual
/-- Python `==` between two DAAP values, following `DAAPType.__eq__`
(`self.value == other.value`, falling back to `self.value == other` on
`AttributeError`), `Numeric.__eq__` (value and byte length), and CPython 2
semantics for the underlying raw comparisons (reflected dispatch, tuple
element-wise comparison, str/unicode ascii coercion).  Notably
`Container(String(s)) == String(s)` and `MultiInt((a,b,c,d)) ==
Version((a,b,c,d))` are true cross-class comparisons. -/
def pyEqV : DValue → DValue → Bool
  | .num k v, .num q w => v == w && width k == width q
  | .multi _ vs, .multi _ ws => vs == ws
  | .multi _ vs, .version a b c d => vs == [(a : Int), (b : Int), (c : Int), (d : Int)]
  | .version a b c d, .multi _ ws => ([(a : Int), (b : Int), (c : Int), (d : Int)] : List Int) == ws
  | .version a b c d, .version e f g i => a == e && b == f && c == g && d == i
  | .dt t, .dt u => t == u
  | .str s, .str t => s == t
  | .str s, .bin bs => asciiEq bs s
  | .bin bs, .str s => asciiEq bs s
  | .str s, .cont (.text t) => s == t
  | .cont (.text t), .str s => t == s
  | .bin bs, .cont (.text t) => asciiEq bs t
  | .cont (.text t), .bin bs => asciiEq bs t
  | .bin bs, .bin cs => bs == cs
  | .cont (.text t), .cont (.text u) => t == u
  | .cont (.nodes ns), .cont (.nodes ms) => pyEqL ns ms
  | _, _ => false

/-- Python `==` on two node lists (element-wise `Node.__eq__`). -/
def pyEqL : List DNode → List DNode → Bool
  | [], [] => true
  | n :: ns, m :: ms => pyEqN n m && pyEqL ns ms
  | _, _ => false

/-- `Node.__eq__`: tags equal and values equal. -/
def pyEqN : DNode → DNode → Bool
  | ⟨t1, v1⟩, ⟨t2, v2⟩ => t1 == t2 && pyEqV v1 v2
end

/-- Is this value a `Binary` leaf? -/
def isBinV : DValue → Bool
  | .bin _ => true
  | _ => false

/-- Does a registry entry name the class of this value (so that decoding
re-dispatches to the same class)? -/
def typeMatch : TagType → DValue → Bool
  | .tUByte, .num k _ => k == .ubyte
  | .tByte, .num k _ => k == .byte
  | .tUShort, .num k _ => k == .ushort
  | .tShort, .num k _ => k == .short
  | .tUInt, .num k _ => k == .uint
  | .tInt, .num k _ => k == .int
  | .tULong, .num k _ => k == .ulong
  | .tLong, .num k _ => k == .long
  | .tString, .str _ => true
  | .tBinary, .bin _ => true
  | .tContainer, .cont _ => true
  | _, _ => false

/-- Did a node-parse attempt fail with a `ValueError`-class exception (the
condition under which `Container.deserialize` falls back to text)? -/
def isVEFail (r : Except DErr DNode) : Bool :=
  match r with
  | .error e => isValueError e
  | .ok _ => false

mutual
/-- Well-formedness of a value drawn from claim C1's universe (scalar,
string, binary, or Container values only): scalars in range, strings of
valid code points, and every text-form Container non-empty with an encoding
on which a node parse fails at offset 0 with a `ValueError` (otherwise the
decoder commits to the node-list or error path and the round trip is
broken). -/
def wfV (reg : Registry) : DValue → Bool
  | .num k v => decide (minVal k ≤ v ∧ v ≤ maxVal k)
  | .str s => s.all validCp
  | .bin _ => true
  | .cont (.text s) =>
    s.all validCp && decide (s ≠ []) && isVEFail (nodeDeserialize reg (utf8EncodeList s))
  | .cont (.nodes ns) => wfL reg ns
  | _ => false

/-- Well-formedness of a child list. -/
def wfL (reg : Registry) : List DNode → Bool
  | [] => true
  | n :: ns => wfN reg n && wfL reg ns

/-- Well-formedness of a node: a 4-byte tag whose registry entry matches
the value's class (or no entry, with a `Binary` value), and a well-formed
value. -/
def wfN (reg : Registry) : DNode → Bool
  | ⟨tag, v⟩ =>
    tag.length == 4 &&
    (match lookupTag reg tag with
     | some tt => typeMatch tt v
     | none => isBinV v) &&
    wfV reg v
end

/-- The raw `value` attribute of a leaf (what `x.value.value` exposes). -/
inductive RawV where
  | rInt (v : Int)
  | rIntTuple (vs : List Int)
  | rTime (t : Option Int)
  | rVersion (a b c d : Nat)
  | rText (s : List Nat)
  | rBytes (bs : List Nat)
deriving DecidableEq, Repr

/-- One element of the list `Node.__getattr__` returns: the child node
itself when its value is a `Container` (or `Node`), otherwise the child's
unwrapped raw value. -/
inductive LookupItem where
  | nodeItem (n : DNode)
  | rawItem (r : RawV)

/-- The element `Node.__getattr__` appends for a matching child. -/
def itemOf (x : DNode) : LookupItem :=
  match x.val with
  | .cont _ => .nodeItem x
  | .num _ v => .rawItem (.rInt v)
  | .multi _ vs => .rawItem (.rIntTuple vs)
  | .dt t => .rawItem (.rTime t)
  | .version a b c d => .rawItem (.rVersion a b c d)
  | .str s => .rawItem (.rText s)
  | .bin bs => .rawItem (.rBytes bs)

/-- The `AttributeError` raised by `Node.__getattr__`. -/
inductive GAErr where
  | attributeError
deriving DecidableEq, Repr

/-- `Node.__getattr__(name)`: when the value is a node-list `Container`,
return the (possibly empty) list of entries for children whose tag equals
`name`; in every other case (non-Container value, or a text-form Container
whose `String` payload cannot be iterated as nodes) raise
`AttributeError`. -/
def getattrN (n : DNode) (name : List Nat) : Except GAErr (List LookupItem) :=
  match n.val with
  | .cont (.nodes l) => .ok ((l.filter (fun x => x.tag == name)).map itemOf)
  | .cont (.text _) => .error .attributeError
  | .num _ _ => .error .attributeError
  | .multi _ _ => .error .attributeError
  | .dt _ => .error .attributeError
  | .version _ _ _ _ => .error .attributeError
  | .str _ => .error .attributeError
  | .bin _ => .error .attributeError

/-- An arbitrary Python object passed to `Numeric.__init__`, characterized
by the one operation the constructor applies to it: `int(value)`, which
yields an integer or raises (`asInt = none`). -/
structure PyObj where
  asInt : Option Int

/-- `Numeric.__init__`: `int(value)` with any exception re-raised as
`TypeError`, then the `[min_value, max_value]` range check raising
`ValueError`. -/
def numericInit (k : NumKind) (o : PyObj) : Except DErr Int :=
  match o.asInt with
  | none => .error .typeError
  | some v => numericInitInt k v

/-- `struct.pack('<n>s', bs)`: truncate or NUL-pad to exactly `n` bytes. -/
def packPadded (n : Nat) (bs : List Nat) : List Nat :=
  bs.take n ++ List.replicate (n - bs.length) 0

/-- `passcode.encode('utf-16')[2:]`: the UTF-16 encoding (byte-order marker
`FF FE` followed by little-endian code units, for the BMP code points a
4-digit passcode consists of) with the 2-byte marker stripped. -/
def utf16PyBytes (pc : List Nat) : List Nat :=
  (([0xFF, 0xFE] ++ pc.flatMap (fun c => [c % 256, c / 256 % 256])).drop 2)

/-- `struct.pack('16s8sB31xB7x', pair, passcode.encode('utf-16')[2:], 0x80,
0xc0)` from `generate_code` (`pairing.py` line 147): the 64-byte parameter
block of the pairing hash. -/
def rawParam (pair passcode : List Nat) : List Nat :=
  packPadded 16 pair ++ packPadded 8 (utf16PyBytes passcode) ++
    [0x80] ++ List.replicate 31 0 ++ [0xC0] ++ List.replicate 7 0

/-- One little-endian 32-bit word read from the front of a byte list
(an element of `struct.unpack('16L', rawparam)` as interpreted on the
32-bit little-endian platform the code targets). -/
def leWord32 (bs : List Nat) : Nat :=
  bs.getD 0 0 + 256 * bs.getD 1 0 + 65536 * bs.getD 2 0 + 16777216 * bs.getD 3 0

/-- `struct.unpack('16L', block)`: the sixteen little-endian 32-bit words
of the parameter block. -/
def paramWords (block : List Nat) : List Nat :=
  (List.range 16).map (fun i => leWord32 (block.drop (4 * i)))

/-- The parameter block exactly as claim C7's words lay it out (a
definition following the claim, for comparison with `rawParam`, which is
translated from the source): 16 bytes of pairing id, then **16** bytes of
the UTF-16 passcode, then `0x80`, 31 zeros, `0xC0`, 7 zeros. -/
def rawParamClaimC7 (pair passcode : List Nat) : List Nat :=
  packPadded 16 pair ++ packPadded 16 (utf16PyBytes passcode) ++
    [0x80] ++ List.replicate 31 0 ++ [0xC0] ++ List.replicate 7 0

/-- Modelled from the spec: the tag registry (`tags.py` is imported by
`types.py` but missing from the sources; the spec describes it as a
`tag -> (display name, value type)` table, §4.7).  Entries are those the
spec and the repository's tests/docstrings exercise. -/
def dacpyRegistry : Registry :=
  [(strBytes "msup", .tUByte), (strBytes "msed", .tUByte),
   (strBytes "mstt", .tUInt), (strBytes "musr", .tUInt),
   (strBytes "mstm", .tUInt), (strBytes "mlit", .tContainer),
   (strBytes "mlcl", .tContainer), (strBytes "msrv", .tContainer),
   (strBytes "msml", .tContainer), (strBytes "minm", .tString),
   (strBytes "mpro", .tVersion), (strBytes "msma", .tULong),
   (strBytes "ceWM", .tBinary), (strBytes "mstc", .tDateTime)]

/-- The buffer of claim C2:
`b'mlit\x00\x00\x00\x05Hellomlit\x00\x00\x00\x05World'`. -/
def bufC2 : List Nat :=
  strBytes "mlit" ++ [0, 0, 0, 5] ++ strBytes "Hello" ++
    strBytes "mlit" ++ [0, 0, 0, 5] ++ strBytes "World"

/-- A tree from claim C1's universe whose text-form container payload
parses as a node: `Node('mlit', Container(String(u'msup\x00\x00\x00\x01A')))`. -/
def exNodeC1 : DNode := ⟨strBytes "mlit", .cont (.text (strBytes "msup" ++ [0, 0, 0, 1, 65]))⟩

theorem bytesBE_length (n w : Nat) : (bytesBE n w).length = w := by
  induction w generalizing n with
  | zero => rfl
  | succ w ih => simp [bytesBE, ih]

theorem natOfBE_append (xs : List Nat) (b : Nat) :
    natOfBE (xs ++ [b]) = natOfBE xs * 256 + b := by
  simp [natOfBE, List.foldl_append]

theorem natOfBE_bytesBE (n w : Nat) : natOfBE (bytesBE n w) = n % 256 ^ w := by
  induction w generalizing n with
  | zero => simp [bytesBE, natOfBE, Nat.mod_one]
  | succ w ih =>
    rw [bytesBE, natOfBE_append, ih]
    have hpow : (256 : Nat) ^ (w + 1) = 256 * 256 ^ w := by ring
    rw [hpow, Nat.mod_mul]
    ring

theorem pow256_eq (w : Nat) : (256 : Nat) ^ w = 2 ^ (w * 8) := by
  have : (256 : Nat) = 2 ^ 8 := by norm_num
  rw [this, ← pow_mul, Nat.mul_comm]

theorem natOfBE_lt (bs : List Nat) (h : ∀ b ∈ bs, b < 256) :
    natOfBE bs < 256 ^ bs.length := by
  suffices hgen : ∀ (l : List Nat) (a : Nat), (∀ b ∈ l, b < 256) →
      List.foldl (fun x b => x * 256 + b) a l < (a + 1) * 256 ^ l.length by
    have := hgen bs 0 h
    simpa [natOfBE] using this
  intro l
  induction l with
  | nil => intro a _; simpa using Nat.lt_succ_self a
  | cons b t ih =>
    intro a hb
    have hblt : b < 256 := hb b (by simp)
    have ht : ∀ x ∈ t, x < 256 := fun x hx => hb x (by simp [hx])
    have h1 := ih (a * 256 + b) ht
    have h2 : (a * 256 + b + 1) * 256 ^ t.length ≤ (a + 1) * 256 ^ (t.length + 1) := by
      have : a * 256 + b + 1 ≤ (a + 1) * 256 := by nlinarith
      calc (a * 256 + b + 1) * 256 ^ t.length ≤ (a + 1) * 256 * 256 ^ t.length :=
            Nat.mul_le_mul_right _ this
      _ = (a + 1) * 256 ^ (t.length + 1) := by ring
    simpa [List.foldl_cons, List.length_cons] using lt_of_lt_of_le h1 h2

theorem packNum_length (k : NumKind) (v : Int) : (packNum k v).length = width k := by
  simp [packNum, bytesBE_length]

theorem pack4s_length (tag : List Nat) : (pack4s tag).length = 4 := by
  simp [pack4s]
  omega

theorem packPadded_length (n : Nat) (bs : List Nat) : (packPadded n bs).length = n := by
  simp [packPadded]
  omega

theorem decodeNumVal_packNum (k : NumKind) (v : Int) (rest : List Nat)
    (h1 : minVal k ≤ v) (h2 : v ≤ maxVal k) :
    decodeNumVal k (packNum k v ++ rest) = v := by
  have htake : (packNum k v ++ rest).take (width k) = packNum k v := by
    rw [show width k = (packNum k v).length from (packNum_length k v).symm]
    exact List.take_left _ _
  have hval : natOfBE ((packNum k v ++ rest).take (width k)) =
      ((v % (2 ^ (width k * 8) : Int)).toNat) % 2 ^ (width k * 8) := by
    rw [htake, packNum, natOfBE_bytesBE, pow256_eq]
  rw [decodeNumVal]
  rw [hval]
  cases k <;>
    simp only [width, signedB, minVal, maxVal] at h1 h2 ⊢ <;>
    norm_num at h1 h2 ⊢ <;>
    first
    | (split <;> omega)
    | omega

theorem decodeNumVal_range (k : NumKind) (data : List Nat)
    (h : ∀ b ∈ data, b < 256) :
    minVal k ≤ decodeNumVal k data ∧ decodeNumVal k data ≤ maxVal k := by
  have hu : natOfBE (data.take (width k)) < 2 ^ (width k * 8) := by
    have h1 : natOfBE (data.take (width k)) < 256 ^ (data.take (width k)).length :=
      natOfBE_lt _ (fun b hb => h b (List.mem_of_mem_take hb))
    have h2 : (256 : Nat) ^ (data.take (width k)).length ≤ 256 ^ width k := by
      apply Nat.pow_le_pow_right (by omega)
      simp [List.length_take]
    calc natOfBE (data.take (width k)) < 256 ^ width k := lt_of_lt_of_le h1 h2
    _ = 2 ^ (width k * 8) := pow256_eq _
  rw [decodeNumVal]
  cases k <;>
    simp only [width, signedB, minVal, maxVal] at hu ⊢ <;>
    norm_num at hu ⊢ <;>
    first
    | (split <;> omega)
    | omega

theorem utf8DecodeList_encodeChar (c : Nat) (rest : List Nat) (hc : c < 0x110000) :
    utf8DecodeList (utf8EncodeChar c ++ rest) =
      (utf8DecodeList rest).map (fun s => c :: s) := by
  rcases Nat.lt_or_ge c 0x80 with h1 | h1
  · have hb : utf8EncodeChar c = [c] := by
      rw [utf8EncodeChar, if_pos h1]
    have hone : decodeOneUtf8 c rest = some (c, 0) := by
      rw [decodeOneUtf8]
      simp only []
      rw [if_pos h1]
    rw [hb, List.cons_append, List.nil_append, utf8DecodeList, hone]
    simp
  · rcases Nat.lt_or_ge c 0x800 with h2 | h2
    · have hb : utf8EncodeChar c = [0xC0 + c / 64, 0x80 + c % 64] := by
        rw [utf8EncodeChar, if_neg (by omega), if_pos h2]
      have k3 : isContByte (0x80 + c % 64) = true := by
        simp only [isContByte, decide_eq_true_eq]
        omega
      have hone : decodeOneUtf8 (0xC0 + c / 64) ((0x80 + c % 64) :: rest) = some (c, 1) := by
        rw [decodeOneUtf8]
        simp only [List.getD_cons_zero]
        rw [if_neg (by omega), if_neg (by omega), if_pos (by omega)]
        simp only [k3, if_true]
        rw [if_pos (by omega)]
        rw [show (0xC0 + c / 64 - 0xC0) * 64 + (0x80 + c % 64 - 0x80) = c from by omega]
      rw [hb, List.cons_append, List.cons_append, List.nil_append, utf8DecodeList, hone]
      simp
    · rcases Nat.lt_or_ge c 0x10000 with h3 | h3
      · have hb : utf8EncodeChar c = [0xE0 + c / 4096, 0x80 + c / 64 % 64, 0x80 + c % 64] := by
          rw [utf8EncodeChar, if_neg (by omega), if_neg (by omega), if_pos h3]
        have k3a : isContByte (0x80 + c / 64 % 64) = true := by
          simp only [isContByte, decide_eq_true_eq]
          omega
        have k3b : isContByte (0x80 + c % 64) = true := by
          simp only [isContByte, decide_eq_true_eq]
          omega
        have hone : decodeOneUtf8 (0xE0 + c / 4096)
            ((0x80 + c / 64 % 64) :: (0x80 + c % 64) :: rest) = some (c, 2) := by
          rw [decodeOneUtf8]
          simp only [List.getD_cons_zero, List.getD_cons_succ]
          rw [if_neg (by omega), if_neg (by omega), if_neg (by omega), if_pos (by omega)]
          simp only [k3a, k3b, true_and, and_self, if_true]
          rw [if_pos (by omega)]
          rw [show (0xE0 + c / 4096 - 0xE0) * 4096 + (0x80 + c / 64 % 64 - 0x80) * 64 +
            (0x80 + c % 64 - 0x80) = c from by omega]
        rw [hb, List.cons_append, List.cons_append, List.cons_append, List.nil_append,
          utf8DecodeList, hone]
        simp
      · have hb : utf8EncodeChar c =
            [0xF0 + c / 262144, 0x80 + c / 4096 % 64, 0x80 + c / 64 % 64, 0x80 + c % 64] := by
          rw [utf8EncodeChar, if_neg (by omega), if_neg (by omega), if_neg (by omega)]
        have k3a : isContByte (0x80 + c / 4096 % 64) = true := by
          simp only [isContByte, decide_eq_true_eq]
          omega
        have k3b : isContByte (0x80 + c / 64 % 64) = true := by
          simp only [isContByte, decide_eq_true_eq]
          omega
        have k3c : isContByte (0x80 + c % 64) = true := by
          simp only [isContByte, decide_eq_true_eq]
          omega
        have hone : decodeOneUtf8 (0xF0 + c / 262144)
            ((0x80 + c / 4096 % 64) :: (0x80 + c / 64 % 64) :: (0x80 + c % 64) :: rest) =
            some (c, 3) := by
          rw [decodeOneUtf8]
          simp only [List.getD_cons_zero, List.getD_cons_succ]
          rw [if_neg (by omega), if_neg (by omega), if_neg (by omega), if_neg (by omega),
            if_pos (by omega)]
          simp only [k3a, k3b, k3c, true_and, and_self, if_true]
          rw [if_pos (by omega)]
          rw [show (0xF0 + c / 262144 - 0xF0) * 262144 + (0x80 + c / 4096 % 64 - 0x80) * 4096 +
            (0x80 + c / 64 % 64 - 0x80) * 64 + (0x80 + c % 64 - 0x80) = c from by omega]
        rw [hb, List.cons_append, List.cons_append, List.cons_append, List.cons_append,
          List.nil_append, utf8DecodeList, hone]
        simp

theorem utf8DecodeList_encodeList (s : List Nat) (h : s.all validCp = true) :
    utf8DecodeList (utf8EncodeList s) = some s := by
  induction s with
  | nil =>
    rw [show utf8EncodeList [] = [] from rfl, utf8DecodeList]
  | cons c t ih =>
    have hc : c < 0x110000 := by
      have := (List.all_eq_true.mp h) c (by simp)
      simpa [validCp] using this
    have ht : t.all validCp = true := by
      rw [List.all_eq_true] at h ⊢
      exact fun x hx => h x (by simp [hx])
    rw [show utf8EncodeList (c :: t) = utf8EncodeChar c ++ utf8EncodeList t from by
      simp [utf8EncodeList]]
    rw [utf8DecodeList_encodeChar c _ hc, ih ht]
    rfl

theorem utf8EncodeChar_ne_nil (c : Nat) : utf8EncodeChar c ≠ [] := by
  rw [utf8EncodeChar]
  split <;> try split <;> try split
  all_goals simp

theorem utf8EncodeList_ne_nil (c : Nat) (t : List Nat) :
    utf8EncodeList (c :: t) ≠ [] := by
  rw [show utf8EncodeList (c :: t) = utf8EncodeChar c ++ utf8EncodeList t from by
    simp [utf8EncodeList]]
  simp [utf8EncodeChar_ne_nil]

theorem flatMap_packNum_length (k : NumKind) (vs : List Int) :
    (vs.flatMap (fun v => packNum k v)).length = vs.length * width k := by
  induction vs with
  | nil => simp
  | cons v t ih =>
    simp only [List.flatMap_cons, List.length_append, packNum_length, ih, List.length_cons]
    ring

mutual
theorem serializeV_length (v : DValue) (bs : List Nat) (h : serializeV v = some bs) :
    bs.length = dlength v := by
  cases v with
  | num k val =>
    simp only [serializeV] at h
    split at h
    · simp only [Option.some.injEq] at h
      subst h
      simp [dlength, packNum_length]
    · exact Option.noConfusion h
  | multi sg vs =>
    simp only [serializeV] at h
    split at h
    · simp only [Option.some.injEq] at h
      subst h
      rw [dlength, flatMap_packNum_length]
      cases sg <;> simp [width, baseKind]
    · exact Option.noConfusion h
  | dt t =>
    cases t with
    | none =>
      simp only [serializeV, Option.some.injEq] at h
      subst h
      simp [dlength]
    | some i =>
      simp only [serializeV] at h
      split at h
      · simp only [Option.some.injEq] at h
        subst h
        simp [dlength, packNum_length, width]
      · exact Option.noConfusion h
  | version a b c d =>
    simp only [serializeV] at h
    split at h
    · simp only [Option.some.injEq] at h
      subst h
      simp [dlength]
    · exact Option.noConfusion h
  | str s =>
    simp only [serializeV, Option.some.injEq] at h
    subst h
    simp [dlength]
  | bin l =>
    simp only [serializeV, Option.some.injEq] at h
    subst h
    simp [dlength]
  | cont c =>
    simp only [serializeV] at h
    rw [dlength]
    exact serializeC_length c bs h

theorem serializeC_length (c : ContVal) (bs : List Nat) (h : serializeC c = some bs) :
    bs.length = clength c := by
  cases c with
  | text s =>
    simp only [serializeC, Option.some.injEq] at h
    subst h
    simp [clength]
  | nodes ns =>
    simp only [serializeC] at h
    rw [clength]
    exact serializeL_length ns bs h

theorem serializeL_length (ns : List DNode) (bs : List Nat) (h : serializeL ns = some bs) :
    bs.length = nlistLength ns := by
  cases ns with
  | nil =>
    simp only [serializeL, Option.some.injEq] at h
    subst h
    rfl
  | cons n t =>
    rw [serializeL] at h
    cases hsn : serializeN n with
    | none => rw [hsn] at h; exact Option.noConfusion h
    | some b =>
      rw [hsn] at h
      cases hst : serializeL t with
      | none => rw [hst] at h; exact Option.noConfusion h
      | some r =>
        rw [hst] at h
        simp only [Option.some.injEq] at h
        subst h
        rw [List.length_append, nlistLength,
          serializeN_length n b hsn, serializeL_length t r hst]

theorem serializeN_length (n : DNode) (bs : List Nat) (h : serializeN n = some bs) :
    bs.length = nodeLength n := by
  cases n with
  | mk tag v =>
    rw [serializeN] at h
    cases hsv : serializeV v with
    | none => rw [hsv] at h; exact Option.noConfusion h
    | some data =>
      simp only [hsv] at h
      by_cases hP : data.length < 2 ^ 31
      · rw [if_pos hP] at h
        cases h
        simp only [List.length_append, pack4s_length, bytesBE_length, nodeLength,
          serializeV_length v data hsv]
        omega
      · rw [if_neg hP] at h
        exact Option.noConfusion h
end

theorem numericDeserialize_packNum (k : NumKind) (v : Int)
    (h1 : minVal k ≤ v) (h2 : v ≤ maxVal k) :
    numericDeserialize k (packNum k v) = .ok (.num k v) := by
  rw [numericDeserialize]
  rw [if_neg (by simp [packNum_length])]
  have hd : decodeNumVal k (packNum k v) = v := by
    have h := decodeNumVal_packNum k v [] h1 h2
    rwa [List.append_nil] at h
  rw [hd, numericInitInt, if_neg (by omega)]

theorem numericDeserialize_of_serialize (k : NumKind) (val : Int) (data : List Nat)
    (hsv : serializeV (.num k val) = some data) :
    numericDeserialize k data = .ok (.num k val) := by
  rw [serializeV] at hsv
  split at hsv
  · rename_i hcond
    simp only [Option.some.injEq] at hsv
    subst hsv
    exact numericDeserialize_packNum k val hcond.1 hcond.2
  · exact Option.noConfusion hsv

theorem stringDeserialize_encode (s : List Nat) (h : s.all validCp = true) :
    stringDeserialize (utf8EncodeList s) = .ok (.str s) := by
  rw [stringDeserialize, utf8DecodeList_encodeList s h]

theorem serializeN_eq (tag : List Nat) (v : DValue) (bs : List Nat)
    (h : serializeN ⟨tag, v⟩ = some bs) :
    ∃ data, serializeV v = some data ∧ data.length < 2 ^ 31 ∧
      bs = pack4s tag ++ bytesBE data.length 4 ++ data := by
  rw [serializeN] at h
  cases hsv : serializeV v with
  | none => rw [hsv] at h; exact Option.noConfusion h
  | some data =>
    simp only [hsv] at h
    by_cases hP : data.length < 2 ^ 31
    · rw [if_pos hP] at h
      cases h
      exact ⟨data, rfl, hP, rfl⟩
    · rw [if_neg hP] at h
      exact Option.noConfusion h

theorem decodeNumVal_int_ofNat (n : Nat) (rest : List Nat) (h : n < 2 ^ 31) :
    decodeNumVal .int (bytesBE n 4 ++ rest) = (n : Int) := by
  rw [decodeNumVal]
  have htake : (bytesBE n 4 ++ rest).take (width .int) = bytesBE n 4 := by
    rw [show width NumKind.int = (bytesBE n 4).length from by simp [width, bytesBE_length]]
    exact List.take_left _ _
  rw [htake, natOfBE_bytesBE]
  have hlt : n % 256 ^ 4 = n := Nat.mod_eq_of_lt (by norm_num at h ⊢; omega)
  rw [hlt]
  rw [if_neg (show ¬ (signedB .int ∧ 2 ^ (width .int * 8 - 1) ≤ n) from by
    simp only [signedB, width]
    norm_num at h ⊢
    omega)]

theorem pack4s_of_len4 (tag : List Nat) (h : tag.length = 4) : pack4s tag = tag := by
  rw [pack4s, h]
  simp [List.take_of_length_le (by omega : tag.length ≤ 4)]

theorem nodeDeserialize_layout (reg : Registry) (tag data rest : List Nat)
    (htag : tag.length = 4) (hlt : data.length < 2 ^ 31) :
    nodeDeserialize reg (tag ++ (bytesBE data.length 4 ++ (data ++ rest))) =
      typeDispatch reg tag (lookupTag reg tag) data := by
  set B := tag ++ (bytesBE data.length 4 ++ (data ++ rest)) with hB
  have hlen4 : (bytesBE data.length 4).length = 4 := bytesBE_length _ _
  have hBlen : B.length = 8 + data.length + rest.length := by
    simp only [hB, List.length_append, htag, hlen4]
    omega
  have h8 : ¬ B.length < 8 := by omega
  have htake4 : B.take 4 = tag := by
    rw [hB]
    exact List.take_left' htag
  have hdrop4 : B.drop 4 = bytesBE data.length 4 ++ (data ++ rest) := by
    rw [hB]
    exact List.drop_left' htag
  have hsize : decodeNumVal .int (B.drop 4) = (data.length : Int) := by
    rw [hdrop4]
    exact decodeNumVal_int_ofNat data.length (data ++ rest) hlt
  have hdrop8 : B.drop 8 = data ++ rest := by
    have : B.drop 8 = (B.drop 4).drop 4 := by
      rw [List.drop_drop]
    rw [this, hdrop4]
    exact List.drop_left' hlen4
  rw [nodeDeserialize, if_neg h8, htake4, hsize]
  dsimp only []
  rw [if_neg (show ¬ ((data.length : Int) < 0) from by omega)]
  rw [Int.toNat_natCast, hdrop8, List.take_left]
  rw [if_neg (show ¬ ((data.length : Int) ≠ (data.length : Int)) from by simp)]

mutual
theorem roundtripN (reg : Registry) (n : DNode) (bs rest : List Nat)
    (hwf : wfN reg n = true) (hser : serializeN n = some bs) :
    nodeDeserialize reg (bs ++ rest) = .ok n := by
  cases n with
  | mk tag v =>
    obtain ⟨data, hsv, hlt, hbs⟩ := serializeN_eq tag v bs hser
    rw [wfN] at hwf
    simp only [Bool.and_eq_true, beq_iff_eq] at hwf
    obtain ⟨⟨htag, hmatch⟩, hwfv⟩ := hwf
    subst hbs
    rw [pack4s_of_len4 tag htag, List.append_assoc, List.append_assoc]
    rw [nodeDeserialize_layout reg tag data rest htag hlt]
    cases hlk : lookupTag reg tag with
    | none =>
      simp only [hlk] at hmatch
      cases v <;> simp only [isBinV, Bool.false_eq_true] at hmatch
      case bin bs0 =>
        rw [serializeV] at hsv
        simp only [Option.some.injEq] at hsv
        subst hsv
        simp only [typeDispatch]
    | some tt =>
      simp only [hlk] at hmatch
      cases tt <;> cases v <;>
        simp only [typeMatch, beq_iff_eq, Bool.false_eq_true] at hmatch
      case tUByte.num k val =>
        subst hmatch
        simp only [typeDispatch, numericDeserialize_of_serialize _ val data hsv, Except.map]
      case tByte.num k val =>
        subst hmatch
        simp only [typeDispatch, numericDeserialize_of_serialize _ val data hsv, Except.map]
      case tUShort.num k val =>
        subst hmatch
        simp only [typeDispatch, numericDeserialize_of_serialize _ val data hsv, Except.map]
      case tShort.num k val =>
        subst hmatch
        simp only [typeDispatch, numericDeserialize_of_serialize _ val data hsv, Except.map]
      case tUInt.num k val =>
        subst hmatch
        simp only [typeDispatch, numericDeserialize_of_serialize _ val data hsv, Except.map]
      case tInt.num k val =>
        subst hmatch
        simp only [typeDispatch, numericDeserialize_of_serialize _ val data hsv, Except.map]
      case tULong.num k val =>
        subst hmatch
        simp only [typeDispatch, numericDeserialize_of_serialize _ val data hsv, Except.map]
      case tLong.num k val =>
        subst hmatch
        simp only [typeDispatch, numericDeserialize_of_serialize _ val data hsv, Except.map]
      case tString.str s =>
        rw [serializeV] at hsv
        simp only [Option.some.injEq] at hsv
        subst hsv
        rw [wfV] at hwfv
        simp only [typeDispatch, stringDeserialize_encode s hwfv, Except.map]
      case tBinary.bin bs0 =>
        rw [serializeV] at hsv
        simp only [Option.some.injEq] at hsv
        subst hsv
        simp only [typeDispatch]
      case tContainer.cont c =>
        rw [serializeV] at hsv
        simp only [typeDispatch, roundtripC reg c data hwfv hsv]

theorem roundtripC (reg : Registry) (c : ContVal) (bs : List Nat)
    (hwf : wfV reg (.cont c) = true) (hser : serializeC c = some bs) :
    containerDeserialize reg bs = .ok c := by
  cases c with
  | text s =>
    rw [serializeC] at hser
    simp only [Option.some.injEq] at hser
    subst hser
    rw [wfV] at hwf
    simp only [Bool.and_eq_true, decide_eq_true_eq] at hwf
    obtain ⟨⟨hval, hne⟩, hfail⟩ := hwf
    have hnil : utf8EncodeList s ≠ [] := by
      cases s with
      | nil => exact absurd rfl hne
      | cons c t => exact utf8EncodeList_ne_nil c t
    rw [containerDeserialize, dif_neg hnil]
    cases hnd : nodeDeserialize reg (utf8EncodeList s) with
    | ok n =>
      simp only [hnd, isVEFail, Bool.false_eq_true] at hfail
    | error e =>
      simp only [hnd, isVEFail] at hfail
      simp only [hnd, hfail, if_true]
      rw [utf8DecodeList_encodeList s hval]
  | nodes ns =>
    rw [serializeC] at hser
    rw [wfV] at hwf
    exact roundtripL reg ns bs hwf hser

theorem roundtripL (reg : Registry) (ns : List DNode) (bs : List Nat)
    (hwf : wfL reg ns = true) (hser : serializeL ns = some bs) :
    containerDeserialize reg bs = .ok (.nodes ns) := by
  cases ns with
  | nil =>
    rw [serializeL] at hser
    simp only [Option.some.injEq] at hser
    subst hser
    rw [containerDeserialize, dif_pos rfl]
  | cons n t =>
    rw [serializeL] at hser
    cases hsn : serializeN n with
    | none =>
      simp only [hsn] at hser
      exact Option.noConfusion hser
    | some b =>
      cases hst : serializeL t with
      | none =>
        simp only [hsn, hst] at hser
        exact Option.noConfusion hser
      | some r =>
        simp only [hsn, hst, Option.some.injEq] at hser
        subst hser
        rw [wfL] at hwf
        simp only [Bool.and_eq_true] at hwf
        obtain ⟨hwn, hwt⟩ := hwf
        have hblen : b.length = nodeLength n := serializeN_length n b hsn
        have hnpos : 0 < nodeLength n := by
          cases n with
          | mk tg v => simp [nodeLength]
        have hbne : b ++ r ≠ [] := by
          intro hz
          have hl := congrArg List.length hz
          simp only [List.length_append, List.length_nil] at hl
          omega
        rw [containerDeserialize, dif_neg hbne]
        simp only [roundtripN reg n b r hwn hsn]
        have hdrop : (b ++ r).drop (nodeLength n) = r := by
          rw [← hblen]
          exact List.drop_left b r
        simp only [hdrop, roundtripL reg t r hwt hst]
end

/-- Claim C3 (amended).  `DateTime.serialize` of the absent value (`None`)
yields exactly the sentinel bytes `FF FF 9D 90`; `DateTime.deserialize` of
those four bytes yields the **concrete** calendar instant denoted by the
integer `-25200` (the test suite pins it to `datetime(1969, 12, 31, 9, 0)`
in the reference timezone), not the absent-value state. -/
theorem dt_sentinel_roundtrip :
    serializeV (.dt none) = some [0xff, 0xff, 0x9d, 0x90] ∧
    dtDeserialize [0xff, 0xff, 0x9d, 0x90] = .ok (.dt (some (-25200))) :=
  ⟨rfl, rfl⟩

/-- Counterexample to claim C3 as stated.  Deserializing the sentinel bytes does *not*
yield the absent-value state, contrary to the claim. -/
theorem dt_sentinel_not_absent :
    dtDeserialize [0xff, 0xff, 0x9d, 0x90] ≠ .ok (.dt none) := by
  rw [show dtDeserialize [0xff, 0xff, 0x9d, 0x90] = .ok (.dt (some (-25200))) from rfl]
  simp

/-- Counterexample to claim C5 as stated.  Looking up a tag with no matching children on a
node-list Container returns the empty list silently — it does not fail. -/
theorem getattr_missing_returns_empty :
    getattrN ⟨strBytes "msrv", .cont (.nodes [⟨strBytes "mstt", .num .uint 200⟩])⟩
      (strBytes "abcd") = .ok [] := rfl

/-- Claim C5 (amended).  For every Node and every tag name,
`Node.__getattr__` behaves as follows: on a node-list Container it returns
the list of entries for the children carrying that tag (the child Node
itself for Container-valued children, the unwrapped raw value otherwise);
in particular, when no immediate child carries the tag it silently returns
the empty list — no `NotFoundError` exists, absence is not observable as an
error; and it raises `AttributeError` exactly when the Node's value is not
a node-list Container (a non-Container value, or a text-form Container). -/
theorem getattr_contract (n : DNode) (name : List Nat) :
    (∀ l, n.val = DValue.cont (ContVal.nodes l) →
       getattrN n name = .ok ((l.filter (fun x => x.tag == name)).map itemOf)) ∧
    (∀ l, n.val = DValue.cont (ContVal.nodes l) →
       l.filter (fun x => x.tag == name) = [] → getattrN n name = .ok []) ∧
    (getattrN n name = .error .attributeError ↔
       ∀ l, n.val ≠ DValue.cont (ContVal.nodes l)) := by
  obtain ⟨tag, v⟩ := n
  by_cases hnl : ∃ l, v = DValue.cont (ContVal.nodes l)
  · obtain ⟨l, rfl⟩ := hnl
    refine ⟨?_, ?_, ?_⟩
    · intro l' h
      simp only [DNode.val, DValue.cont.injEq, ContVal.nodes.injEq] at h
      subst h
      simp only [getattrN, DNode.val]
    · intro l' h hf
      simp only [DNode.val, DValue.cont.injEq, ContVal.nodes.injEq] at h
      subst h
      simp only [getattrN, DNode.val, hf, List.map_nil]
    · constructor
      · intro h
        simp only [getattrN, DNode.val] at h
        exact Except.noConfusion h
      · intro h
        exact absurd rfl (h l)
  · push_neg at hnl
    have hval : (DNode.mk tag v).val = v := rfl
    have herr : getattrN ⟨tag, v⟩ name = .error .attributeError := by
      cases v with
      | cont c =>
        cases c with
        | nodes l => exact absurd rfl (hnl l)
        | text s => simp only [getattrN, DNode.val]
      | num k val => simp only [getattrN, DNode.val]
      | multi sg vs => simp only [getattrN, DNode.val]
      | dt t => simp only [getattrN, DNode.val]
      | version a b c d => simp only [getattrN, DNode.val]
      | str s => simp only [getattrN, DNode.val]
      | bin bs => simp only [getattrN, DNode.val]
    refine ⟨?_, ?_, ?_⟩
    · intro l' h
      rw [hval] at h
      exact absurd h (hnl l')
    · intro l' h _
      rw [hval] at h
      exact absurd h (hnl l')
    · exact ⟨fun _ l' h => absurd (hval ▸ h) (hnl l'), fun _ => herr⟩

/-- Witness for claim C5 (amended): a present tag returns the matching
child's unwrapped value, an absent tag returns the empty list, and a
non-node-list value raises `AttributeError`. -/
theorem getattr_contract_witness :
    getattrN ⟨strBytes "msrv", .cont (.nodes [⟨strBytes "mstt", .num .uint 200⟩])⟩
      (strBytes "mstt") = .ok [.rawItem (.rInt 200)] ∧
    getattrN ⟨strBytes "msrv", .cont (.nodes [⟨strBytes "mstt", .num .uint 200⟩])⟩
      (strBytes "mlit") = .ok [] ∧
    getattrN ⟨strBytes "msrv", .str (strBytes "x")⟩ (strBytes "mstt") =
      .error .attributeError :=
  ⟨((getattr_contract ⟨strBytes "msrv", .cont (.nodes [⟨strBytes "mstt", .num .uint 200⟩])⟩
      (strBytes "mstt")).1 [⟨strBytes "mstt", .num .uint 200⟩] rfl).trans (by rfl),
   (getattr_contract ⟨strBytes "msrv", .cont (.nodes [⟨strBytes "mstt", .num .uint 200⟩])⟩
      (strBytes "mlit")).2.1 [⟨strBytes "mstt", .num .uint 200⟩] rfl (by rfl),
   (getattr_contract ⟨strBytes "msrv", .str (strBytes "x")⟩ (strBytes "mstt")).2.2.mpr
     (fun l h => by simp [DNode.val] at h)⟩

/-- Counterexample to claim C6 as stated.  A 7-byte buffer is not an exact multiple of the
4-byte element width, yet `MultiInt.deserialize` succeeds (one element,
trailing bytes ignored) instead of failing with a `FormatError`. -/
theorem multi_deserialize_7bytes :
    multiDeserialize true [0, 0, 0, 42, 9, 9, 9] = .ok (.multi true [42]) := rfl

/-- Claim C6 (amended).  `MultiNumeric.deserialize` never fails on any byte
buffer: the element count is `len(bytes) / 4` with floor division (Python 2
`/` on ints), so an exact multiple decodes `len / 4` elements and a
non-multiple silently ignores the trailing remainder. -/
theorem multi_deserialize_total (sg : Bool) (bs : List Nat)
    (h : ∀ b ∈ bs, b < 256) :
    ∃ vs, multiDeserialize sg bs = .ok (.multi sg vs) ∧ vs.length = bs.length / 4 := by
  refine ⟨(List.range (bs.length / width (baseKind sg))).map
    (fun i => decodeNumVal (baseKind sg) (bs.drop (width (baseKind sg) * i))), ?_, ?_⟩
  · rw [multiDeserialize]
    rw [multiInit, if_pos ?hall]
    case hall =>
      rw [List.all_eq_true]
      intro x hx
      obtain ⟨i, _, hxe⟩ := List.mem_map.mp hx
      subst hxe
      have hr := decodeNumVal_range (baseKind sg) (bs.drop (width (baseKind sg) * i))
        (fun b hb => h b (List.drop_subset _ _ hb))
      simpa using hr
  · cases sg <;> simp [baseKind, width]

/-- Witness for claim C6 (amended) (an exact multiple: 8 bytes give
2 elements). -/
theorem multi_deserialize_total_witness :
    ([255, 255, 255, 255, 0, 0, 0, 1] : List Nat).length / 4 = 2 ∧
    ∃ vs, multiDeserialize true [255, 255, 255, 255, 0, 0, 0, 1] = .ok (.multi true vs) ∧
      vs.length = ([255, 255, 255, 255, 0, 0, 0, 1] : List Nat).length / 4 :=
  ⟨by decide, multi_deserialize_total true [255, 255, 255, 255, 0, 0, 0, 1] (by decide)⟩

/-- Counterexample to claim C7 as stated.  The parameter block the claim describes (with a
**16**-byte passcode field) differs from the block `generate_code` builds
(whose passcode field is 8 bytes, pack format `'16s8sB31xB7x'`). -/
theorem rawParam_claim_mismatch :
    rawParamClaimC7 (strBytes "0000000000000000") (strBytes "1234") ≠
      rawParam (strBytes "0000000000000000") (strBytes "1234") := by
  decide

/-- Claim C7 (amended).  The pairing hash's 64-byte parameter block is: 16
bytes of the pairing id, **8** bytes of the passcode re-encoded as UTF-16
code units with the byte-order marker stripped, the byte `0x80`, 31 zero
bytes, the byte `0xC0`, and 7 trailing zero bytes; it is read as 16
little-endian 32-bit words. -/
theorem rawParam_layout (pair pc : List Nat) :
    rawParam pair pc =
      packPadded 16 pair ++ packPadded 8 (utf16PyBytes pc) ++
        [0x80] ++ List.replicate 31 0 ++ [0xC0] ++ List.replicate 7 0 ∧
    (rawParam pair pc).length = 64 ∧
    (paramWords (rawParam pair pc)).length = 16 := by
  refine ⟨rfl, ?_, ?_⟩
  · simp [rawParam, List.length_append, packPadded_length]
  · simp [paramWords]

/-- Claim C8.  For each of the eight scalar kinds and every in-range integer
`v`, serializing yields the big-endian fixed-width bytes and deserializing
those bytes yields the same scalar back. -/
theorem scalar_roundtrip (k : NumKind) (v : Int)
    (h1 : minVal k ≤ v) (h2 : v ≤ maxVal k) :
    serializeV (.num k v) = some (packNum k v) ∧
    numericDeserialize k (packNum k v) = .ok (.num k v) := by
  constructor
  · rw [serializeV, if_pos ⟨h1, h2⟩]
  · exact numericDeserialize_packNum k v h1 h2

/-- Witness for claim C8. -/
theorem scalar_roundtrip_witness :
    minVal .byte ≤ (-5 : Int) ∧ (-5 : Int) ≤ maxVal .byte ∧
    numericDeserialize .byte (packNum .byte (-5)) = .ok (.num .byte (-5)) :=
  ⟨by decide, by decide, (scalar_roundtrip .byte (-5) (by decide) (by decide)).2⟩

/-- Claim C9.  `Numeric.__init__` raises `TypeError` when `int(value)` fails,
raises `ValueError` (the spec's `RangeError`) for every integer outside
`[min_value, max_value]`, and succeeds for every in-range integer. -/
theorem numeric_init_contract (k : NumKind) (o : PyObj) :
    (o.asInt = none → numericInit k o = .error .typeError) ∧
    (∀ v, o.asInt = some v →
      ((minVal k ≤ v ∧ v ≤ maxVal k) → numericInit k o = .ok v) ∧
      ((v < minVal k ∨ maxVal k < v) → numericInit k o = .error .valueError)) := by
  constructor
  · intro h
    simp only [numericInit, h]
  · intro v hv
    constructor
    · intro hr
      simp only [numericInit, hv, numericInitInt]
      rw [if_neg (by omega)]
    · intro hr
      simp only [numericInit, hv, numericInitInt]
      rw [if_pos (by omega)]

/-- Witness for claim C9. -/
theorem numeric_init_contract_witness :
    numericInit .ubyte ⟨none⟩ = .error .typeError ∧
    numericInit .ubyte ⟨some 255⟩ = .ok 255 ∧
    numericInit .ubyte ⟨some 256⟩ = .error .valueError :=
  ⟨(numeric_init_contract .ubyte ⟨none⟩).1 rfl,
   ((numeric_init_contract .ubyte ⟨some 255⟩).2 255 rfl).1 (by decide),
   ((numeric_init_contract .ubyte ⟨some 256⟩).2 256 rfl).2 (by decide)⟩

/-- Claim C10.  For every value and every node, when serialization succeeds
the byte length of the serialization equals the `length` attribute recorded
at construction. -/
theorem serialized_length_eq :
    (∀ (v : DValue) (bs : List Nat), serializeV v = some bs → bs.length = dlength v) ∧
    (∀ (n : DNode) (bs : List Nat), serializeN n = some bs → bs.length = nodeLength n) :=
  ⟨serializeV_length, serializeN_length⟩

/-- Witness for claim C10. -/
theorem serialized_length_eq_witness :
    serializeN ⟨strBytes "msup", .num .ubyte 255⟩ =
      some [109, 115, 117, 112, 0, 0, 0, 1, 255] ∧
    ([109, 115, 117, 112, 0, 0, 0, 1, 255] : List Nat).length =
      nodeLength ⟨strBytes "msup", .num .ubyte 255⟩ :=
  ⟨rfl, serialized_length_eq.2 ⟨strBytes "msup", .num .ubyte 255⟩ _ rfl⟩

/-- Claim C1 (amended).  For every tree `T` from the claim's universe (scalar,
string, binary, or Container values) that is well-formed for the registry —
4-byte tags whose registry entries match the value classes (unregistered
tags carry Binary), in-range scalars, valid code points, and every
text-form Container non-empty with an encoding on which a node parse fails
at offset 0 with a `ValueError` — decoding the encoding of `T` yields a
tree structurally identical to `T` (hence `==`-equal), and therefore
re-encoding it reproduces the original byte string. -/
theorem tree_roundtrip (reg : Registry) (T : DNode) (bs : List Nat)
    (hwf : wfN reg T = true) (hser : serializeN T = some bs) :
    nodeDeserialize reg bs = .ok T := by
  have h := roundtripN reg T bs [] hwf hser
  rwa [List.append_nil] at h

/-- Witness for claim C1 for the amended claim. -/
theorem tree_roundtrip_witness :
    wfN dacpyRegistry ⟨strBytes "msup", .num .ubyte 255⟩ = true ∧
    serializeN ⟨strBytes "msup", .num .ubyte 255⟩ =
      some [109, 115, 117, 112, 0, 0, 0, 1, 255] ∧
    nodeDeserialize dacpyRegistry [109, 115, 117, 112, 0, 0, 0, 1, 255] =
      .ok ⟨strBytes "msup", .num .ubyte 255⟩ :=
  ⟨by decide, rfl, tree_roundtrip dacpyRegistry _ _ (by decide) (by rfl)⟩

/-- Counterexample to claim C1 as stated.  The tree
`Node('mlit', Container(String(u'msup\x00\x00\x00\x01A')))` is built from
the claim's value types, but its text payload parses as a node, so
decoding its encoding yields a node-list Container that is not `==`-equal
to the original (the second equation `encode(decode(encode T)) ==
encode(T)` does hold here; the first fails). -/
theorem tree_roundtrip_counterexample :
    serializeN exNodeC1 =
      some (strBytes "mlit" ++ ([0, 0, 0, 9] ++ (strBytes "msup" ++ [0, 0, 0, 1, 65]))) ∧
    nodeDeserialize dacpyRegistry
        (strBytes "mlit" ++ ([0, 0, 0, 9] ++ (strBytes "msup" ++ [0, 0, 0, 1, 65]))) =
      .ok ⟨strBytes "mlit", .cont (.nodes [⟨strBytes "msup", .num .ubyte 65⟩])⟩ ∧
    pyEqN ⟨strBytes "mlit", .cont (.nodes [⟨strBytes "msup", .num .ubyte 65⟩])⟩
      exNodeC1 = false := by
  refine ⟨rfl, ?_, rfl⟩
  have h := roundtripN dacpyRegistry
    ⟨strBytes "mlit", .cont (.nodes [⟨strBytes "msup", .num .ubyte 65⟩])⟩
    (strBytes "mlit" ++ ([0, 0, 0, 9] ++ (strBytes "msup" ++ [0, 0, 0, 1, 65]))) []
    (by decide) (by rfl)
  rwa [List.append_nil] at h

/-- Claim C2.  Decoding
`b'mlit\x00\x00\x00\x05Hellomlit\x00\x00\x00\x05World'` as a Container
takes the node-parse path (the buffer starts with a valid node header) and
yields exactly two child Nodes, each holding a Text leaf (`"Hello"`,
`"World"`); the text fallback fires only inside each node's 5-byte payload,
where a node parse fails at offset 0 with a `ValueError`. -/
theorem container_text_nodes_decode :
    containerDeserialize dacpyRegistry bufC2 =
      .ok (.nodes [⟨strBytes "mlit", .cont (.text (strBytes "Hello"))⟩,
                   ⟨strBytes "mlit", .cont (.text (strBytes "World"))⟩]) := by
  have hH : nodeDeserialize dacpyRegistry (utf8EncodeList (strBytes "Hello")) =
      .error .valueError := by
    rw [nodeDeserialize, if_pos (by decide)]
  have hW : nodeDeserialize dacpyRegistry (utf8EncodeList (strBytes "World")) =
      .error .valueError := by
    rw [nodeDeserialize, if_pos (by decide)]
  have hw1 : wfN dacpyRegistry ⟨strBytes "mlit", .cont (.text (strBytes "Hello"))⟩ = true := by
    rw [wfN, wfV, hH]
    decide
  have hw2 : wfN dacpyRegistry ⟨strBytes "mlit", .cont (.text (strBytes "World"))⟩ = true := by
    rw [wfN, wfV, hW]
    decide
  have hwf : wfL dacpyRegistry
      [⟨strBytes "mlit", .cont (.text (strBytes "Hello"))⟩,
       ⟨strBytes "mlit", .cont (.text (strBytes "World"))⟩] = true := by
    simp only [wfL, hw1, hw2, Bool.true_and]
  exact roundtripL dacpyRegistry _ bufC2 hwf (by rfl)

/-- Claim C4.  For every registry and every buffer with a well-formed 8-byte
node header whose declared payload is present, `Node.deserialize` with a
tag absent from the registry never raises: it returns a Node whose value is
an Opaque-bytes (`Binary`) leaf equal to the raw payload. -/
theorem unknown_tag_decodes_binary (reg : Registry) (bs : List Nat)
    (h8 : 8 ≤ bs.length)
    (hnn : 0 ≤ decodeNumVal .int (bs.drop 4))
    (hfit : 8 + decodeNumVal .int (bs.drop 4) ≤ (bs.length : Int))
    (hlk : lookupTag reg (bs.take 4) = none) :
    nodeDeserialize reg bs =
      .ok ⟨bs.take 4, .bin ((bs.drop 8).take (decodeNumVal .int (bs.drop 4)).toNat)⟩ := by
  rw [nodeDeserialize, if_neg (by omega)]
  dsimp only []
  rw [if_neg (show ¬ decodeNumVal .int (bs.drop 4) < 0 from by omega)]
  rw [if_neg ?hne]
  case hne =>
    simp only [List.length_take, List.length_drop, ne_eq]
    omega
  rw [hlk]
  simp only [typeDispatch]

/-- Witness for claim C4. -/
theorem unknown_tag_witness :
    lookupTag dacpyRegistry
      (([122, 122, 122, 122, 0, 0, 0, 3, 1, 2, 3] : List Nat).take 4) = none ∧
    nodeDeserialize dacpyRegistry [122, 122, 122, 122, 0, 0, 0, 3, 1, 2, 3] =
      .ok ⟨([122, 122, 122, 122, 0, 0, 0, 3, 1, 2, 3] : List Nat).take 4,
           .bin ((([122, 122, 122, 122, 0, 0, 0, 3, 1, 2, 3] : List Nat).drop 8).take
             (decodeNumVal .int
               (([122, 122, 122, 122, 0, 0, 0, 3, 1, 2, 3] : List Nat).drop 4)).toNat)⟩ :=
  ⟨by decide,
   unknown_tag_decodes_binary dacpyRegistry _ (by decide) (by decide) (by decide) (by decide)⟩
